import Mathlib

/-!
Verification of `bulk_mailer.py` (repository saloni-1314/bulk-mailer).

The Python program is shallowly embedded: pure fragments become Lean
functions, and the effectful parts (filesystem reads, the SMTP session,
`time.sleep`, `print`) are modelled with explicit oracles and an event
trace.  Machine-level details that the program never exercises (unicode
subtleties of `str.strip`, CSV quoting) are modelled at the level the
program uses them: a CSV file is a list of rows, each row a list of cell
strings, and `str.strip` is a character-level trim.
-/

set_option maxRecDepth 8000

namespace BulkMailer

/-- The character `\x7b` (left curly brace), written via its code point. -/
def lbrace : Char := Char.ofNat 123

/-- The character `\x7d` (right curly brace), written via its code point. -/
def rbrace : Char := Char.ofNat 125

/-- Python truthiness of an optional string (`None` and `""` are falsy). -/
def pyTruthy : Option String → Bool
  | none => false
  | some s => !(s = "")

/-- Python `a or b` for two optional strings (used for flag/env fallback). -/
def pyOr (a b : Option String) : Option String :=
  if pyTruthy a then a else b

/-- Python `a or b` where `b` is a plain string (`sender_display or user`). -/
def pyOrS (a : Option String) (b : String) : String :=
  match a with
  | none => b
  | some s => if s = "" then b else s

/-! ## Recipient loader (`load_recipients`, bulk_mailer.py lines 29-40) -/

/-- One recipient dict produced by `load_recipients`: keys
`email`, `first`, `last` are always present. -/
structure Recipient where
  email : String
  first : String
  last : String
deriving Repr, DecidableEq

/-- Python `str.strip()`: drop whitespace from both ends (modelled on the
character list, so that it evaluates by kernel reduction). -/
def pyStrip (s : String) : String :=
  String.mk (((s.data.dropWhile Char.isWhitespace).reverse.dropWhile Char.isWhitespace).reverse)

/-- Python `s.startswith('#')`. -/
def startsHash (s : String) : Bool :=
  match s.data with
  | [] => false
  | c :: _ => c = '#'

/-- `load_recipients`: the CSV file is given as its parsed rows (Python's
`csv.reader` yields `[]` for a blank line).  A row is skipped when
`not row` (no cells) or its first cell, stripped, starts with `#`;
otherwise the three fields are stripped, missing cells defaulting to `""`. -/
def load_recipients : List (List String) → List Recipient
  | [] => []
  | row :: rest =>
    match row with
    | [] => load_recipients rest
    | c0 :: cs =>
      if startsHash (pyStrip c0) then load_recipients rest
      else
        { email := pyStrip c0
          first := pyStrip (cs.getD 0 "")
          last := pyStrip (cs.getD 1 "") } :: load_recipients rest

/-- The keep condition of `load_recipients`, as a predicate on one row. -/
def keepRow (row : List String) : Bool :=
  !(row.isEmpty || startsHash (pyStrip (row.headD "")))

/-- The record built by `load_recipients` from one kept row. -/
def parseRow (row : List String) : Recipient :=
  { email := pyStrip (row.headD "")
    first := pyStrip (row.getD 1 "")
    last := pyStrip (row.getD 2 "") }

/-! ## Template rendering (`str.format(**subs)`, bulk_mailer.py lines 49-51)

`subject_template.format(**subs)` with `subs` a dict of string keys is
modelled by a single left-to-right scan over the characters: literal
characters are copied, `\x7b\x7b` and `\x7d\x7d` are brace escapes, and a
`\x7bname\x7d` field is replaced by `subs[name]`, an unknown name raising
`KeyError`.  Substituted values are never rescanned (no recursion).  The
program only ever uses plain field names, so format specs and conversions
are out of scope of the model. -/

/-- Scanner state of the format scan: copying literal text, just after an
unpaired left or right brace, or inside a field name (accumulated reversed). -/
inductive FMode where
  | copy
  | afterL
  | afterR
  | field (acc : List Char)

/-- One pass of Python `str.format` over the template characters. -/
def renderAux (subs : String → Option String) : FMode → List Char → Except String (List Char)
  | .copy, [] => .ok []
  | .afterL, [] => .error "ValueError: Single brace in format string"
  | .afterR, [] => .error "ValueError: Single brace in format string"
  | .field _, [] => .error "ValueError: expected closing brace"
  | .copy, c :: rest =>
    if c = lbrace then renderAux subs .afterL rest
    else if c = rbrace then renderAux subs .afterR rest
    else (renderAux subs .copy rest).map (fun t => c :: t)
  | .afterL, c :: rest =>
    if c = lbrace then (renderAux subs .copy rest).map (fun t => lbrace :: t)
    else if c = rbrace then .error "IndexError: Replacement index 0 out of range"
    else renderAux subs (.field [c]) rest
  | .afterR, c :: rest =>
    if c = rbrace then (renderAux subs .copy rest).map (fun t => rbrace :: t)
    else .error "ValueError: Single brace in format string"
  | .field acc, c :: rest =>
    if c = rbrace then
      match subs (String.mk acc.reverse) with
      | none => .error ("KeyError: " ++ String.mk acc.reverse)
      | some v => (renderAux subs .copy rest).map (fun t => v.data ++ t)
    else if c = lbrace then .error "ValueError: unexpected brace in field name"
    else renderAux subs (.field (c :: acc)) rest

/-- `template.format(**subs)` on a whole string. -/
def pyFormat (template : String) (subs : String → Option String) : Except String String :=
  (renderAux subs .copy template.data).map String.mk

/-! ## Recipient dicts at the builder interface

`build_message` accepts any dict; keys `first`/`last`/`email` may each be
absent.  `recipient.get(k, "")` is `Option.getD`, `recipient["email"]`
raises `KeyError` when absent. -/

/-- A recipient dict as `build_message` sees it (every key optional). -/
structure RecipientDict where
  email : Option String
  first : Option String
  last : Option String
deriving Repr, DecidableEq

/-- The `subs` dict of `build_message` line 49: exactly the keys
`first`, `last`, `email`, with `recipient.get(k, "")` values. -/
def RecipientDict.subs (r : RecipientDict) : String → Option String :=
  fun k =>
    if k = "first" then some (r.first.getD "")
    else if k = "last" then some (r.last.getD "")
    else if k = "email" then some (r.email.getD "")
    else none

/-- Loader output always carries all three keys. -/
def Recipient.toDict (r : Recipient) : RecipientDict :=
  { email := some r.email, first := some r.first, last := some r.last }

/-! ## Message builder (`build_message`, bulk_mailer.py lines 46-78) -/

/-- File contents, as a byte list. -/
def ByteSeq : Type := List Nat
deriving instance DecidableEq, Repr for ByteSeq

/-- The body part structure of the built `EmailMessage`: either one plain
part (`set_content(body)`), or a plain fallback notice plus an HTML
alternative (`set_content(notice); add_alternative(body, subtype=html)`). -/
inductive Body where
  | plain (text : String)
  | htmlAlt (fallback : String) (html : String)
deriving Repr, DecidableEq

/-- The plain-text fallback notice of the HTML branch (line 58). -/
def htmlNotice : String := "This email contains HTML. Open in an HTML-capable client."

/-- One attachment added with `msg.add_attachment(...)` (line 74). -/
structure Attachment where
  data : ByteSeq
  maintype : String
  subtype : String
  filename : String
deriving Repr, DecidableEq

/-- The outbound message assembled by `build_message`. -/
structure EmailMessage where
  fromAddr : String
  toAddr : String
  subject : String
  body : Body
  attachments : List Attachment
deriving Repr, DecidableEq

/-- `os.path.basename` for the POSIX paths the program uses: the suffix
after the last `/`. -/
def basename (p : String) : String :=
  String.mk ((p.data.reverse.takeWhile (fun c => !(c = '/'))).reverse)

/-- Split a character list at the first `/`, if any. -/
def breakAtSlash : List Char → Option (List Char × List Char)
  | [] => none
  | c :: rest =>
    if c = '/' then some ([], rest)
    else (breakAtSlash rest).map (fun p => (c :: p.1, p.2))

/-- `ctype.split('/', 1)` (line 72). -/
def splitSlash1 (s : String) : List String :=
  match breakAtSlash s.data with
  | none => [s]
  | some (a, b) => [String.mk a, String.mk b]

/-- The environment `build_message` and `send_bulk` run against: filesystem
reads, `mimetypes.guess_type`, and the SMTP session steps, each an oracle
returning either success or the exception it raises. -/
structure World where
  fsBytes : String → Except String ByteSeq
  fsText : String → Except String String
  guessType : String → Option String
  connect : Except String Unit
  starttls : Except String Unit
  login : Except String Unit
  smtpSend : Nat → EmailMessage → Except String Unit

/-- The attachment block body (lines 65-74): read the file, infer the MIME
type (`None` falls back to `application/octet-stream`; a type without a
slash makes the tuple unpacking at line 72 raise), and build the
attachment under the file's base name.  Any error is the caught exception. -/
def attachFile (w : World) (path : String) : Except String Attachment :=
  match w.fsBytes path with
  | .error e => .error e
  | .ok data =>
    match w.guessType path with
    | none => .ok { data := data, maintype := "application", subtype := "octet-stream",
                    filename := basename path }
    | some ctype =>
      match splitSlash1 ctype with
      | [mt, st] => .ok { data := data, maintype := mt, subtype := st,
                          filename := basename path }
      | _ => .error "ValueError: not enough values to unpack"

/-- `build_message` (lines 46-78).  Returns the message together with the
warning lines it printed, or the exception it raises: a render failure
from either template, or `KeyError` from `recipient[\x22email\x22]` at line 54.
The attachment block swallows its own failures into a warning. -/
def build_message (w : World) (sender : String) (recipient : RecipientDict)
    (subject_template body_template : String) (is_html : Bool)
    (attachment_path : Option String) : Except String (EmailMessage × List String) :=
  match pyFormat subject_template recipient.subs with
  | .error e => .error e
  | .ok subject =>
    match pyFormat body_template recipient.subs with
    | .error e => .error e
    | .ok body =>
      match recipient.email with
      | none => .error "KeyError: email"
      | some toA =>
        let bodyPart := if is_html then Body.htmlAlt htmlNotice body else Body.plain body
        let base : EmailMessage :=
          { fromAddr := sender, toAddr := toA, subject := subject, body := bodyPart,
            attachments := [] }
        if pyTruthy attachment_path then
          let p := attachment_path.getD ""
          match attachFile w p with
          | .ok a => .ok ({ base with attachments := [a] }, [])
          | .error e => .ok (base, ["Warning: failed to attach " ++ p ++ ": " ++ e])
        else
          .ok (base, [])

/-! ## Delivery loop (`send_bulk`, bulk_mailer.py lines 80-104)

The loop is modelled as a pure function producing the number of sent
messages and the trace of observable events (printed lines and sleeps),
or the exception that aborted the run. -/

/-- One observable event of a run: a printed warning, the per-recipient
progress or error line, a `time.sleep(delay)` pause, or the final summary. -/
inductive Event where
  | warn (line : String)
  | sentLine (i total : Nat) (email : String)
  | errorLine (i total : Nat) (email : String) (err : String)
  | sleepFor (d : Rat)
  | summary (sent total : Nat)
deriving Repr, DecidableEq

/-- The arguments `send_bulk` receives from `main`. -/
structure SendArgs where
  user : String
  senderDisplay : Option String
  subjectTemplate : String
  bodyTemplate : String
  isHtml : Bool
  attachmentPath : Option String
  delay : Rat
  useTls : Bool

/-- `sender_display or user` at the call of `build_message` (line 96). -/
def senderOf (a : SendArgs) : String := pyOrS a.senderDisplay a.user

/-- The `build_message` call the loop makes for one recipient. -/
def buildFor (w : World) (a : SendArgs) (r : RecipientDict) :
    Except String (EmailMessage × List String) :=
  build_message w (senderOf a) r a.subjectTemplate a.bodyTemplate a.isHtml a.attachmentPath

/-- The combined build-and-send attempt for recipient `r` at 1-based
index `i`: the body of the `try` block minus the prints. -/
def attemptOf (w : World) (a : SendArgs) (i : Nat) (r : RecipientDict) :
    Except String Unit :=
  match buildFor w a r with
  | .error e => .error e
  | .ok (m, _) => w.smtpSend i m

/-- One iteration of the loop body (lines 95-101): returns the increment
to `sent` and the printed lines.  Both the success print and the
error-handler print read `r[\x22email\x22]`; if that key is missing the print
itself raises and the exception escapes the loop. -/
def stepEvents (w : World) (a : SendArgs) (i total : Nat) (r : RecipientDict) :
    Except String (Nat × List Event) :=
  match buildFor w a r with
  | .ok (m, warns) =>
    match r.email with
    | none => .error "KeyError: email"
    | some em =>
      match w.smtpSend i m with
      | .ok _ => .ok (1, warns.map Event.warn ++ [Event.sentLine i total em])
      | .error e => .ok (0, warns.map Event.warn ++ [Event.errorLine i total em e])
  | .error e =>
    match r.email with
    | none => .error "KeyError: email"
    | some em => .ok (0, [Event.errorLine i total em e])

/-- The `for i, r in enumerate(recipients, start=1)` loop (lines 94-103),
including the `if delay > 0 and i != len(recipients): time.sleep(delay)`
pause after each iteration but the last. -/
def runLoop (w : World) (a : SendArgs) (total : Nat) :
    Nat → List RecipientDict → Except String (Nat × List Event)
  | _, [] => .ok (0, [])
  | i, r :: rest =>
    match stepEvents w a i total r with
    | .error e => .error e
    | .ok (inc, evts) =>
      match runLoop w a total (i + 1) rest with
      | .error e => .error e
      | .ok (s, tr) =>
        .ok (inc + s,
          evts ++ (if 0 < a.delay ∧ i ≠ total then [Event.sleepFor a.delay] else []) ++ tr)

/-- `send_bulk` (lines 80-104): connect, optional STARTTLS, login — each
failure propagates with nothing printed — then the delivery loop and the
final `Done. Sent: sent/total` summary line. -/
def send_bulk (w : World) (a : SendArgs) (recipients : List RecipientDict) :
    Except String (Nat × List Event) :=
  match w.connect with
  | .error e => .error e
  | .ok _ =>
    match (if a.useTls then w.starttls else .ok ()) with
    | .error e => .error e
    | .ok _ =>
      match w.login with
      | .error e => .error e
      | .ok _ =>
        match runLoop w a recipients.length 1 recipients with
        | .error e => .error e
        | .ok (sent, tr) =>
          .ok (sent, tr ++ [Event.summary sent recipients.length])

/-! ## CLI front-end (`main`, bulk_mailer.py lines 106-149) -/

/-- The first diagnostic printed when credentials are missing (line 125). -/
def credErr1 : String :=
  "Error: SMTP username and password required either via flags or environment variables SMTP_USER/SMTP_PASS."

/-- The second diagnostic printed when credentials are missing (line 126). -/
def credErr2 : String :=
  "For Gmail: create an App Password and use it here (requires 2FA)."

/-- The diagnostic printed when the CSV yields no recipients (line 131). -/
def noRecipErr : String := "No recipients loaded from CSV. Check file format."

/-- How a run of `main` ends: an early return with a diagnostic (before
any SMTP activity), an unhandled body-file read failure (also before any
SMTP activity), or a full `send_bulk` run. -/
inductive MainResult where
  | credsMissing (lines : List String)
  | noRecipients (line : String)
  | bodyReadError (e : String)
  | ran (result : Except String (Nat × List Event))

/-- `main` (lines 106-149) after argument parsing: resolve credentials
with the `SMTP_USER`/`SMTP_PASS` fallback, fail fast on missing
credentials or an empty recipient list, read the body file, then run
`send_bulk` over the loaded recipients. -/
def main_run (w : World) (argUser argPassword envUser envPass : Option String)
    (csvRows : List (List String)) (subjectTemplate : String) (bodyPath : String)
    (senderName : Option String) (isHtml : Bool) (attachmentPath : Option String)
    (delay : Rat) (noTls : Bool) : MainResult :=
  let user := pyOr argUser envUser
  let password := pyOr argPassword envPass
  if !pyTruthy user || !pyTruthy password then
    .credsMissing [credErr1, credErr2]
  else
    let recipients := load_recipients csvRows
    if recipients.isEmpty then
      .noRecipients noRecipErr
    else
      match w.fsText bodyPath with
      | .error e => .bodyReadError e
      | .ok bodyTemplate =>
        .ran (send_bulk w
          { user := user.getD "", senderDisplay := senderName,
            subjectTemplate := subjectTemplate, bodyTemplate := bodyTemplate,
            isHtml := isHtml, attachmentPath := attachmentPath,
            delay := delay, useTls := !noTls }
          (recipients.map Recipient.toDict))

/-! ## Observables used by the stated properties -/

deriving instance DecidableEq for Except

/-- Is an event a per-recipient error line. -/
def isErrLine : Event → Bool
  | .errorLine _ _ _ _ => true
  | _ => false

/-- Is an event a `time.sleep` pause. -/
def isSleepEv : Event → Bool
  | .sleepFor _ => true
  | _ => false

/-- Number of per-recipient error lines in a trace. -/
def errCount (tr : List Event) : Nat := tr.countP isErrLine

/-- Number of sleeps in a trace. -/
def sleepCount (tr : List Event) : Nat := tr.countP isSleepEv

/-- A template split into segments: literal text and placeholder fields.
`flat` rebuilds the concrete template text of a segment. -/
inductive TPart where
  | lit (s : String)
  | ph (name : String)
deriving Repr, DecidableEq

/-- The template text of one segment. -/
def TPart.flat : TPart → List Char
  | .lit s => s.data
  | .ph n => lbrace :: (n.data ++ [rbrace])

/-- The template text of a segment list. -/
def flatten (ps : List TPart) : List Char := (ps.map TPart.flat).flatten

/-- A segment is admissible when its literal text carries no brace and its
placeholder name is one of `first`, `last`, `email`: such segment lists
produce exactly the templates the spec describes. -/
def TPart.ok3 : TPart → Prop
  | .lit s => ∀ c ∈ s.data, c ≠ lbrace ∧ c ≠ rbrace
  | .ph n => n = "first" ∨ n = "last" ∨ n = "email"

instance : DecidablePred TPart.ok3 := fun p =>
  match p with
  | .lit s => inferInstanceAs (Decidable (∀ c ∈ s.data, c ≠ lbrace ∧ c ≠ rbrace))
  | .ph n => inferInstanceAs (Decidable (n = "first" ∨ n = "last" ∨ n = "email"))

/-- The rendered text of one segment under a substitution map. -/
def TPart.rendered (subs : String → Option String) : TPart → List Char
  | .lit s => s.data
  | .ph n => ((subs n).getD "").data

/-- Sleep discipline of the event block of one loop iteration: a non-final
iteration with positive delay ends in exactly one pause and has no other
pause; the final iteration (or any iteration with nonpositive delay)
pauses not at all. -/
def blockSpec (d : Rat) (isLast : Prop) (blk : List Event) : Prop :=
  (¬ isLast ∧ 0 < d → ∃ pre, blk = pre ++ [Event.sleepFor d] ∧ sleepCount pre = 0) ∧
  (isLast ∨ d ≤ 0 → sleepCount blk = 0)

/-! ## Concrete sample data used by the witnesses -/

/-- A sample recipient dict with all keys present. -/
def aliceDict : RecipientDict :=
  { email := some "alice@example.com", first := some "Alice", last := some "Smith" }

/-- The template segments of `"\x7bfirst\x7d \x7blast\x7d <\x7bemail\x7d>"`. -/
def samplePartsC2 : List TPart :=
  [.ph "first", .lit " ", .ph "last", .lit " <", .ph "email", .lit ">"]

/-- A sample environment: one readable file `a.bin` with no recognizable
MIME type, a readable body file, an SMTP session that accepts everything
except the second message of a run. -/
def sampleWorld : World where
  fsBytes := fun p => if p = "a.bin" then .ok ([1, 2, 3] : List Nat) else .error "No such file"
  fsText := fun _ => .ok "Hello"
  guessType := fun _ => none
  connect := .ok ()
  starttls := .ok ()
  login := .ok ()
  smtpSend := fun i _ => if i = 2 then .error "SMTPRecipientsRefused" else .ok ()

/-- A sample environment whose SMTP login is rejected. -/
def authFailWorld : World :=
  { sampleWorld with login := .error "SMTPAuthenticationError", smtpSend := fun _ _ => .ok () }

/-- A sample environment whose SMTP session accepts every message. -/
def allOkWorld : World :=
  { sampleWorld with smtpSend := fun _ _ => .ok () }

/-- Sample `send_bulk` arguments. -/
def sampleArgs : SendArgs where
  user := "me@example.com"
  senderDisplay := none
  subjectTemplate := "Hi \x7bfirst\x7d"
  bodyTemplate := "Dear \x7bfirst\x7d \x7blast\x7d"
  isHtml := false
  attachmentPath := none
  delay := 1
  useTls := false

/-- Three sample recipients (all with the `email` key). -/
def sampleRecipients : List RecipientDict :=
  [aliceDict,
   { email := some "bob@example.com", first := some "Bob", last := some "Jones" },
   { email := some "carol@example.com", first := some "Carol", last := none }]

/-! ## General lemmas -/

theorem exceptMap_map {ε α β γ : Type} (e : Except ε α) (f : α → β) (g : β → γ) :
    (e.map f).map g = e.map (fun x => g (f x)) := by
  cases e <;> rfl

/-! ## Claims about the loader -/

/-- C1 counterexample: the row `["  ", "Alice", "Smith"]` has an empty
first cell after trimming, yet `load_recipients` keeps it and returns a
record whose `email` field is the empty string — refuting both the claimed
skip rule and the claimed non-empty-email invariant (the claimed output
length, here 0, is also wrong). -/
theorem c1_counterexample :
    (load_recipients [["  ", "Alice", "Smith"]]).length = 1 ∧
    ∃ r ∈ load_recipients [["  ", "Alice", "Smith"]], r.email = "" := by
  refine ⟨rfl, { email := "", first := "Alice", last := "Smith" }, ?_, rfl⟩
  decide

/-- C1 (amended): `load_recipients` keeps exactly the rows that have at
least one cell and whose first cell, after trimming, does not start with
`#` (a row with an empty first cell is kept, with an empty `email`); each
kept row, in the original order, yields the record of its whitespace-trimmed
cells, so the output length equals the number of kept rows. -/
theorem c1_loader_characterization (rows : List (List String)) :
    load_recipients rows = (rows.filter keepRow).map parseRow ∧
    (load_recipients rows).length = (rows.filter keepRow).length := by
  have h : ∀ rs : List (List String), load_recipients rs = (rs.filter keepRow).map parseRow := by
    intro rs
    induction rs with
    | nil => rfl
    | cons row rest ih =>
      cases row with
      | nil => simpa [load_recipients, keepRow, List.filter_cons] using ih
      | cons c0 cs =>
        by_cases hc : startsHash (pyStrip c0) = true
        · simp [load_recipients, hc, keepRow, List.filter_cons, ih]
        · simp [load_recipients, hc, keepRow, List.filter_cons, ih, parseRow]
  exact ⟨h rows, by rw [h rows]; simp⟩

/-- C9: a non-skipped row is parsed best-effort and totally: the first
cell, trimmed, becomes `email`, and the (possibly missing) second and
third cells, trimmed with `""` default, become `first` and `last`; a short
row therefore yields empty name fields and never a failure. -/
theorem c9_row_parsing (c0 : String) (cs : List String) (rows : List (List String))
    (h : startsHash (pyStrip c0) = false) :
    load_recipients ((c0 :: cs) :: rows)
      = { email := pyStrip c0, first := pyStrip (cs.getD 0 ""), last := pyStrip (cs.getD 1 "") }
        :: load_recipients rows := by
  simp [load_recipients, h]

/-- Witness for C9 at the one-cell row `["bob@x.com "]`. -/
theorem c9_witness :
    (startsHash (pyStrip "bob@x.com ") = false) ∧
    load_recipients [["bob@x.com "]] = [{ email := "bob@x.com", first := "", last := "" }] := by
  refine ⟨by decide, ?_⟩
  rw [c9_row_parsing "bob@x.com " [] [] (by decide)]
  decide

/-! ## Claims about the renderer -/

theorem renderAux_copy_append (subs : String → Option String) (xs rest : List Char)
    (h : ∀ c ∈ xs, c ≠ lbrace ∧ c ≠ rbrace) :
    renderAux subs .copy (xs ++ rest)
      = (renderAux subs .copy rest).map (fun t => xs ++ t) := by
  induction xs with
  | nil =>
    simp only [List.nil_append]
    cases renderAux subs .copy rest <;> rfl
  | cons c xs ih =>
    have hc := h c (List.mem_cons_self c xs)
    rw [List.cons_append]
    rw [show renderAux subs .copy (c :: (xs ++ rest))
          = (renderAux subs .copy (xs ++ rest)).map (fun t => c :: t) from by
        simp [renderAux, hc.1, hc.2]]
    rw [ih (fun d hd => h d (List.mem_cons_of_mem c hd))]
    rw [exceptMap_map]
    rfl

theorem renderAux_field_name (subs : String → Option String) (nm : List Char) :
    ∀ (acc rest : List Char), (∀ c ∈ nm, c ≠ lbrace ∧ c ≠ rbrace) →
    renderAux subs (.field acc) (nm ++ rbrace :: rest)
      = (match subs (String.mk (acc.reverse ++ nm)) with
         | none => .error ("KeyError: " ++ String.mk (acc.reverse ++ nm))
         | some v => (renderAux subs .copy rest).map (fun t => v.data ++ t)) := by
  induction nm with
  | nil =>
    intro acc rest h
    simp [renderAux]
  | cons c nm ih =>
    intro acc rest h
    have hc := h c (List.mem_cons_self c nm)
    rw [List.cons_append]
    rw [show renderAux subs (.field acc) (c :: (nm ++ rbrace :: rest))
          = renderAux subs (.field (c :: acc)) (nm ++ rbrace :: rest) from by
        simp [renderAux, hc.1, hc.2]]
    rw [ih (c :: acc) rest (fun d hd => h d (List.mem_cons_of_mem c hd))]
    simp [List.reverse_cons, List.append_assoc]

theorem renderAux_placeholder (subs : String → Option String) (n : String) (rest : List Char)
    (v : String) (hne : n.data ≠ []) (h : ∀ c ∈ n.data, c ≠ lbrace ∧ c ≠ rbrace)
    (hv : subs n = some v) :
    renderAux subs .copy (lbrace :: (n.data ++ rbrace :: rest))
      = (renderAux subs .copy rest).map (fun t => v.data ++ t) := by
  rw [show renderAux subs .copy (lbrace :: (n.data ++ rbrace :: rest))
        = renderAux subs .afterL (n.data ++ rbrace :: rest) from by simp [renderAux]]
  cases hnd : n.data with
  | nil => exact absurd hnd hne
  | cons c cs =>
    have hc := h c (by rw [hnd]; exact List.mem_cons_self c cs)
    have hcs : ∀ d ∈ cs, d ≠ lbrace ∧ d ≠ rbrace := fun d hd =>
      h d (by rw [hnd]; exact List.mem_cons_of_mem c hd)
    rw [List.cons_append]
    rw [show renderAux subs .afterL (c :: (cs ++ rbrace :: rest))
          = renderAux subs (.field [c]) (cs ++ rbrace :: rest) from by
        simp [renderAux, hc.1, hc.2]]
    rw [renderAux_field_name subs cs [c] rest hcs]
    have hmk : String.mk ([c].reverse ++ cs) = n := by
      rw [show [c].reverse ++ cs = c :: cs from rfl, ← hnd]
    rw [hmk, hv]

/-- C2: for every template assembled from brace-free literal segments and
the placeholders `first`, `last`, `email`, and every recipient
substitution map, the single-pass renderer succeeds and replaces every
placeholder occurrence by the corresponding field value, leaving the
substituted values unscanned (no recursive substitution, no escaping). -/
theorem c2_render_literal_substitution (r : RecipientDict) (ps : List TPart)
    (h : ∀ p ∈ ps, TPart.ok3 p) :
    pyFormat (String.mk (flatten ps)) r.subs
      = .ok (String.mk ((ps.map (TPart.rendered r.subs)).flatten)) := by
  unfold pyFormat
  have hs : renderAux r.subs .copy (flatten ps)
      = .ok ((ps.map (TPart.rendered r.subs)).flatten) := by
    induction ps with
    | nil => rfl
    | cons p ps ih =>
      have hp := h p (List.mem_cons_self p ps)
      have hps : ∀ q ∈ ps, TPart.ok3 q := fun q hq => h q (List.mem_cons_of_mem p hq)
      rw [show flatten (p :: ps) = p.flat ++ flatten ps from by simp [flatten]]
      cases p with
      | lit s =>
        rw [show TPart.flat (.lit s) = s.data from rfl]
        rw [renderAux_copy_append r.subs s.data (flatten ps) hp]
        rw [ih hps]
        rfl
      | ph n =>
        have hph : ∃ v, r.subs n = some v ∧ n.data ≠ [] ∧
            (∀ c ∈ n.data, c ≠ lbrace ∧ c ≠ rbrace) := by
          rcases hp with h1 | h1 | h1 <;> subst h1
          · exact ⟨r.first.getD "", rfl, by decide, by decide⟩
          · exact ⟨r.last.getD "", rfl, by decide, by decide⟩
          · exact ⟨r.email.getD "", rfl, by decide, by decide⟩
        obtain ⟨v, hv, hne, hnb⟩ := hph
        rw [show TPart.flat (.ph n) ++ flatten ps
              = lbrace :: (n.data ++ rbrace :: flatten ps) from by
            simp [TPart.flat, List.append_assoc]]
        rw [renderAux_placeholder r.subs n (flatten ps) v hne hnb hv]
        rw [ih hps]
        simp [TPart.rendered, hv, Except.map]
  rw [hs]
  rfl

/-- Witness for C2: rendering `"\x7bfirst\x7d \x7blast\x7d <\x7bemail\x7d>"`
against Alice Smith yields exactly `"Alice Smith <alice@example.com>"`. -/
theorem c2_witness :
    (∀ p ∈ samplePartsC2, TPart.ok3 p) ∧
    String.mk (flatten samplePartsC2) = "\x7bfirst\x7d \x7blast\x7d <\x7bemail\x7d>" ∧
    pyFormat "\x7bfirst\x7d \x7blast\x7d <\x7bemail\x7d>" aliceDict.subs
      = .ok "Alice Smith <alice@example.com>" := by
  refine ⟨by decide, by decide, ?_⟩
  have h := c2_render_literal_substitution aliceDict samplePartsC2 (by decide)
  have e1 : String.mk (flatten samplePartsC2)
      = "\x7bfirst\x7d \x7blast\x7d <\x7bemail\x7d>" := by decide
  have e2 : String.mk ((samplePartsC2.map (TPart.rendered aliceDict.subs)).flatten)
      = "Alice Smith <alice@example.com>" := by decide
  rw [e1, e2] at h
  exact h

/-! ## Claims about the message builder -/

/-- C10: at the builder interface only the `email` key is required:
`build_message` fails with `KeyError` exactly at the missing `email`
lookup of `msg[To]` (provided the templates themselves render), while
missing `first`/`last` keys are substituted as the empty string and the
build succeeds. -/
theorem c10_only_email_required :
    (∀ (w : World) (sender : String) (r : RecipientDict) (st bt : String) (ihtml : Bool)
        (ap : Option String) (s b : String),
        r.email = none → pyFormat st r.subs = .ok s → pyFormat bt r.subs = .ok b →
        build_message w sender r st bt ihtml ap = .error "KeyError: email") ∧
    (∀ em : String,
        (RecipientDict.subs { email := some em, first := none, last := none }) "first"
          = some "" ∧
        (RecipientDict.subs { email := some em, first := none, last := none }) "last"
          = some "" ∧
        ∀ (w : World) (sender : String) (st bt : String) (ihtml : Bool) (s b : String),
          pyFormat st (RecipientDict.subs { email := some em, first := none, last := none })
            = .ok s →
          pyFormat bt (RecipientDict.subs { email := some em, first := none, last := none })
            = .ok b →
          ∃ m warns, build_message w sender { email := some em, first := none, last := none }
              st bt ihtml none = .ok (m, warns)) := by
  constructor
  · intro w sender r st bt ihtml ap s b he hs hb
    unfold build_message
    rw [hs, hb, he]
  · intro em
    refine ⟨rfl, rfl, ?_⟩
    intro w sender st bt ihtml s b hs hb
    refine ⟨{ fromAddr := sender, toAddr := em, subject := s,
              body := if ihtml then Body.htmlAlt htmlNotice b else Body.plain b,
              attachments := [] }, [], ?_⟩
    unfold build_message
    rw [hs, hb]
    rfl

/-- Witness for C10: with only `first` present the build raises
`KeyError: email`; with only `email` present it succeeds. -/
theorem c10_witness :
    build_message sampleWorld "s" { email := none, first := some "A", last := none }
        "x" "y" false none = .error "KeyError: email" ∧
    (∃ m warns, build_message sampleWorld "s"
        { email := some "e@x.com", first := none, last := none }
        "Hi \x7bfirst\x7d" "B" false none = .ok (m, warns)) := by
  constructor
  · exact c10_only_email_required.1 sampleWorld "s"
      { email := none, first := some "A", last := none } "x" "y" false none "x" "y"
      rfl rfl rfl
  · exact (c10_only_email_required.2 "e@x.com").2.2 sampleWorld "s"
      "Hi \x7bfirst\x7d" "B" false "Hi " "B" rfl rfl

/-- C7: the built message has `From` equal to `sender_display or user`
(the display name when a non-empty one is provided, else the SMTP user),
`To` equal to the recipient email, `Subject` equal to the rendered
subject; the body is a single plain part when the HTML flag is off, and a
plain fallback notice plus an HTML alternative carrying the rendered body
when it is on. -/
theorem c7_message_shape (w : World) (user : String) (disp : Option String)
    (r : RecipientDict) (st bt : String) (ihtml : Bool) (em subj bod : String)
    (he : r.email = some em) (hs : pyFormat st r.subs = .ok subj)
    (hb : pyFormat bt r.subs = .ok bod) :
    ∃ m warns, build_message w (pyOrS disp user) r st bt ihtml none = .ok (m, warns) ∧
      m.fromAddr = pyOrS disp user ∧
      (pyTruthy disp = true → m.fromAddr = disp.getD "") ∧
      (pyTruthy disp = false → m.fromAddr = user) ∧
      m.toAddr = em ∧
      m.subject = subj ∧
      (ihtml = false → m.body = .plain bod) ∧
      (ihtml = true → m.body = .htmlAlt htmlNotice bod) := by
  refine ⟨{ fromAddr := pyOrS disp user, toAddr := em, subject := subj,
            body := if ihtml then Body.htmlAlt htmlNotice bod else Body.plain bod,
            attachments := [] }, [], ?_, rfl, ?_, ?_, rfl, rfl, ?_, ?_⟩
  · unfold build_message
    rw [hs, hb, he]
    rfl
  · intro ht
    cases disp with
    | none => simp [pyTruthy] at ht
    | some s =>
      have hs2 : s ≠ "" := by simpa [pyTruthy] using ht
      simp [pyOrS, hs2]
  · intro hf
    cases disp with
    | none => rfl
    | some s =>
      have hs2 : s = "" := by simpa [pyTruthy] using hf
      simp [pyOrS, hs2]
  · intro h0; simp [h0]
  · intro h1; simp [h1]

/-- Witness for C7 at Alice with a display name and the HTML flag on. -/
theorem c7_witness :
    pyFormat "Hi \x7bfirst\x7d" aliceDict.subs = .ok "Hi Alice" ∧
    (∃ m warns, build_message sampleWorld (pyOrS (some "Me <me@x.com>") "user@x.com")
        aliceDict "Hi \x7bfirst\x7d" "B \x7blast\x7d" true none = .ok (m, warns) ∧
      m.fromAddr = pyOrS (some "Me <me@x.com>") "user@x.com" ∧
      (pyTruthy (some "Me <me@x.com>") = true → m.fromAddr = (some "Me <me@x.com>").getD "") ∧
      (pyTruthy (some "Me <me@x.com>") = false → m.fromAddr = "user@x.com") ∧
      m.toAddr = "alice@example.com" ∧
      m.subject = "Hi Alice" ∧
      (true = false → m.body = .plain "B Smith") ∧
      (true = true → m.body = .htmlAlt htmlNotice "B Smith")) := by
  exact ⟨rfl, c7_message_shape sampleWorld "user@x.com" (some "Me <me@x.com>") aliceDict
    "Hi \x7bfirst\x7d" "B \x7blast\x7d" true "alice@example.com" "Hi Alice" "B Smith"
    rfl rfl rfl⟩

/-- C6: attachment handling.  With a readable file the bytes are attached
under the file's base name with the inferred MIME type
(`application/octet-stream` when inference returns nothing); when the
read raises, a single warning is emitted and the returned message is
identical to the one built with no attachment path, so the send still
proceeds. -/
theorem c6_attachment_handling (w : World) (sender : String) (r : RecipientDict)
    (st bt : String) (ihtml : Bool) (p : String) (em subj bod : String)
    (hp : p ≠ "") (he : r.email = some em)
    (hs : pyFormat st r.subs = .ok subj) (hb : pyFormat bt r.subs = .ok bod) :
    (∀ data ct mt st2, w.fsBytes p = .ok data → w.guessType p = some ct →
        splitSlash1 ct = [mt, st2] →
        ∃ m, build_message w sender r st bt ihtml none = .ok (m, []) ∧
          build_message w sender r st bt ihtml (some p)
            = .ok ({ m with attachments :=
                [{ data := data, maintype := mt, subtype := st2, filename := basename p }] },
                [])) ∧
    (∀ data, w.fsBytes p = .ok data → w.guessType p = none →
        ∃ m, build_message w sender r st bt ihtml none = .ok (m, []) ∧
          build_message w sender r st bt ihtml (some p)
            = .ok ({ m with attachments :=
                [{ data := data, maintype := "application", subtype := "octet-stream",
                   filename := basename p }] }, [])) ∧
    (∀ e, w.fsBytes p = .error e →
        ∃ m, build_message w sender r st bt ihtml none = .ok (m, []) ∧
          build_message w sender r st bt ihtml (some p)
            = .ok (m, ["Warning: failed to attach " ++ p ++ ": " ++ e])) := by
  have hno : build_message w sender r st bt ihtml none
      = .ok ({ fromAddr := sender, toAddr := em, subject := subj,
               body := if ihtml then Body.htmlAlt htmlNotice bod else Body.plain bod,
               attachments := [] }, []) := by
    unfold build_message
    rw [hs, hb, he]
    rfl
  have htr : pyTruthy (some p) = true := by
    simp [pyTruthy, hp]
  refine ⟨?_, ?_, ?_⟩
  · intro data ct mt st2 hfs hg hsp
    have ha : attachFile w p
        = .ok { data := data, maintype := mt, subtype := st2, filename := basename p } := by
      unfold attachFile
      simp only [hfs, hg, hsp]
    refine ⟨_, hno, ?_⟩
    unfold build_message
    rw [hs, hb, he]
    simp only [htr, if_true, Option.getD_some, ha]
  · intro data hfs hg
    have ha : attachFile w p
        = .ok { data := data, maintype := "application", subtype := "octet-stream",
                filename := basename p } := by
      unfold attachFile
      simp only [hfs, hg]
    refine ⟨_, hno, ?_⟩
    unfold build_message
    rw [hs, hb, he]
    simp only [htr, if_true, Option.getD_some, ha]
  · intro e hfs
    have ha : attachFile w p = .error e := by
      unfold attachFile
      simp only [hfs]
    refine ⟨_, hno, ?_⟩
    unfold build_message
    rw [hs, hb, he]
    simp only [htr, if_true, Option.getD_some, ha]

/-- Witness for C6: attaching the readable `a.bin` (unrecognized MIME
type) adds one `application/octet-stream` attachment named `a.bin`. -/
theorem c6_witness :
    ("a.bin" ≠ "") ∧
    (∃ m, build_message sampleWorld "s" aliceDict "S" "B" false none = .ok (m, []) ∧
      build_message sampleWorld "s" aliceDict "S" "B" false (some "a.bin")
        = .ok ({ m with attachments :=
            [{ data := [1, 2, 3], maintype := "application", subtype := "octet-stream",
               filename := basename "a.bin" }] }, [])) := by
  refine ⟨by decide, ?_⟩
  exact (c6_attachment_handling sampleWorld "s" aliceDict "S" "B" false "a.bin"
    "alice@example.com" "S" "B" (by decide) rfl rfl rfl).2.1 [1, 2, 3] rfl rfl

/-! ## Lemmas about the delivery loop -/

theorem errCount_append (l1 l2 : List Event) :
    errCount (l1 ++ l2) = errCount l1 + errCount l2 := by
  simp [errCount, List.countP_append]

theorem sleepCount_append (l1 l2 : List Event) :
    sleepCount (l1 ++ l2) = sleepCount l1 + sleepCount l2 := by
  simp [sleepCount, List.countP_append]

theorem errCount_warns (ws : List String) : errCount (ws.map Event.warn) = 0 := by
  induction ws with
  | nil => rfl
  | cons wl ws ih => simpa [errCount, List.countP_cons, isErrLine] using ih

theorem sleepCount_warns (ws : List String) : sleepCount (ws.map Event.warn) = 0 := by
  induction ws with
  | nil => rfl
  | cons wl ws ih => simpa [sleepCount, List.countP_cons, isSleepEv] using ih

/-- Characterization of one loop iteration for a recipient whose dict has
the `email` key: no exception escapes, no sleep is emitted by the body
itself, and the iteration either sends (one progress line, `sent + 1`) or
logs exactly one error line carrying the recipient's email, its 1-based
index and the exception text. -/
theorem stepEvents_spec (w : World) (a : SendArgs) (i total : Nat) (r : RecipientDict)
    (em : String) (he : r.email = some em) :
    ∃ inc evts, stepEvents w a i total r = .ok (inc, evts) ∧ sleepCount evts = 0 ∧
      ((attemptOf w a i r = .ok () ∧ inc = 1 ∧ errCount evts = 0) ∨
       (∃ e, attemptOf w a i r = .error e ∧ inc = 0 ∧ errCount evts = 1 ∧
          Event.errorLine i total em e ∈ evts)) := by
  cases hb : buildFor w a r with
  | error e =>
    have hs : stepEvents w a i total r = .ok (0, [Event.errorLine i total em e]) := by
      unfold stepEvents
      simp only [hb, he]
    have hatt : attemptOf w a i r = .error e := by
      unfold attemptOf
      simp only [hb]
    exact ⟨0, [Event.errorLine i total em e], hs, rfl,
      .inr ⟨e, hatt, rfl, rfl, List.mem_singleton.mpr rfl⟩⟩
  | ok mw =>
    obtain ⟨m, warns⟩ := mw
    cases hsend : w.smtpSend i m with
    | ok u =>
      cases u
      have hs : stepEvents w a i total r
          = .ok (1, warns.map Event.warn ++ [Event.sentLine i total em]) := by
        unfold stepEvents
        simp only [hb, he, hsend]
      have hatt : attemptOf w a i r = .ok () := by
        unfold attemptOf
        simp only [hb, hsend]
      refine ⟨1, warns.map Event.warn ++ [Event.sentLine i total em], hs, ?_,
        .inl ⟨hatt, rfl, ?_⟩⟩
      · rw [sleepCount_append, sleepCount_warns]
        rfl
      · rw [errCount_append, errCount_warns]
        rfl
    | error e =>
      have hs : stepEvents w a i total r
          = .ok (0, warns.map Event.warn ++ [Event.errorLine i total em e]) := by
        unfold stepEvents
        simp only [hb, he, hsend]
      have hatt : attemptOf w a i r = .error e := by
        unfold attemptOf
        simp only [hb, hsend]
      refine ⟨0, warns.map Event.warn ++ [Event.errorLine i total em e], hs, ?_,
        .inr ⟨e, hatt, rfl, ?_, List.mem_append_right _ (List.mem_singleton.mpr rfl)⟩⟩
      · rw [sleepCount_append, sleepCount_warns]
        rfl
      · rw [errCount_append, errCount_warns]
        rfl

/-- If every attempt from position `i` on succeeds, the loop sends
everything and logs no error line. -/
theorem runLoop_all_ok (w : World) (a : SendArgs) (total : Nat) :
    ∀ (rs : List RecipientDict) (i : Nat),
    (∀ r ∈ rs, ∃ em, r.email = some em) →
    (∀ j (hj : j < rs.length), attemptOf w a (i + j) (rs.get ⟨j, hj⟩) = .ok ()) →
    ∃ tr, runLoop w a total i rs = .ok (rs.length, tr) ∧ errCount tr = 0 := by
  intro rs
  induction rs with
  | nil => exact fun i _ _ => ⟨[], rfl, rfl⟩
  | cons r rest ih =>
    intro i he hok
    obtain ⟨em, hem⟩ := he r (List.mem_cons_self r rest)
    obtain ⟨inc, evts, hstep, hsc, hcase⟩ := stepEvents_spec w a i total r em hem
    have h0 : attemptOf w a i r = .ok () := by
      have h := hok 0 (by simp)
      simpa using h
    have hcase2 : inc = 1 ∧ errCount evts = 0 := by
      rcases hcase with ⟨h1, h2, h3⟩ | ⟨e, hatt, h1⟩
      · exact ⟨h2, h3⟩
      · rw [h0] at hatt
        cases hatt
    obtain ⟨tr, hrec, herr⟩ := ih (i + 1)
      (fun q hq => he q (List.mem_cons_of_mem r hq))
      (fun j hj => by
        have h := hok (j + 1) (by simpa using Nat.succ_lt_succ hj)
        have hidx : i + (j + 1) = (i + 1) + j := by omega
        rw [hidx] at h
        exact h)
    refine ⟨evts ++ (if 0 < a.delay ∧ i ≠ total then [Event.sleepFor a.delay] else []) ++ tr,
      ?_, ?_⟩
    · simp only [runLoop, hstep, hrec, hcase2.1]
      simp [Nat.add_comm]
    · rw [errCount_append, errCount_append, hcase2.2, herr]
      have hz : errCount (if 0 < a.delay ∧ i ≠ total then [Event.sleepFor a.delay] else [])
          = 0 := by
        split <;> rfl
      omega

/-- If exactly the attempt at offset `jk` fails and the rest succeed, the
loop returns `length - 1` sends and exactly one error line, which carries
the failing recipient's email, 1-based index and exception text. -/
theorem runLoop_one_failure (w : World) (a : SendArgs) (total : Nat) :
    ∀ (rs : List RecipientDict) (i jk : Nat) (hjk : jk < rs.length) (e : String),
    (∀ r ∈ rs, ∃ em, r.email = some em) →
    attemptOf w a (i + jk) (rs.get ⟨jk, hjk⟩) = .error e →
    (∀ j (hj : j < rs.length), j ≠ jk → attemptOf w a (i + j) (rs.get ⟨j, hj⟩) = .ok ()) →
    ∃ tr em, (rs.get ⟨jk, hjk⟩).email = some em ∧
      runLoop w a total i rs = .ok (rs.length - 1, tr) ∧
      errCount tr = 1 ∧ Event.errorLine (i + jk) total em e ∈ tr := by
  intro rs
  induction rs with
  | nil => intro i jk hjk; exact absurd hjk (by simp)
  | cons r rest ih =>
    intro i jk hjk e he hfail hok
    obtain ⟨em, hem⟩ := he r (List.mem_cons_self r rest)
    obtain ⟨inc, evts, hstep, hsc, hcase⟩ := stepEvents_spec w a i total r em hem
    cases jk with
    | zero =>
      have hfail0 : attemptOf w a i r = .error e := by simpa using hfail
      have hcase2 : inc = 0 ∧ errCount evts = 1 ∧ Event.errorLine i total em e ∈ evts := by
        rcases hcase with ⟨hatt, h1⟩ | ⟨e2, hatt, h1, h2, h3⟩
        · rw [hfail0] at hatt
          cases hatt
        · rw [hfail0] at hatt
          injection hatt with he2
          subst he2
          exact ⟨h1, h2, h3⟩
      obtain ⟨tr, hrec, herr⟩ := runLoop_all_ok w a total rest (i + 1)
        (fun q hq => he q (List.mem_cons_of_mem r hq))
        (fun j hj => by
          have h := hok (j + 1) (by simpa using Nat.succ_lt_succ hj) (Nat.succ_ne_zero j)
          have hidx : i + (j + 1) = (i + 1) + j := by omega
          rw [hidx] at h
          exact h)
      refine ⟨evts ++ (if 0 < a.delay ∧ i ≠ total then [Event.sleepFor a.delay] else []) ++ tr,
        em, by simpa using hem, ?_, ?_, ?_⟩
      · simp only [runLoop, hstep, hrec, hcase2.1]
        simp
      · rw [errCount_append, errCount_append, hcase2.2.1, herr]
        have hz : errCount (if 0 < a.delay ∧ i ≠ total then [Event.sleepFor a.delay] else [])
            = 0 := by
          split <;> rfl
        omega
      · exact List.mem_append_left _ (by simpa using hcase2.2.2)
    | succ jk0 =>
      have hjk0 : jk0 < rest.length := Nat.lt_of_succ_lt_succ hjk
      have h0 : attemptOf w a i r = .ok () := by
        have h := hok 0 (by simp) (by omega)
        simpa using h
      have hcase2 : inc = 1 ∧ errCount evts = 0 := by
        rcases hcase with ⟨h1, h2, h3⟩ | ⟨e2, hatt, h1⟩
        · exact ⟨h2, h3⟩
        · rw [h0] at hatt
          cases hatt
      have hfail2 : attemptOf w a ((i + 1) + jk0) (rest.get ⟨jk0, hjk0⟩) = .error e := by
        have h := hfail
        have hidx : i + (jk0 + 1) = (i + 1) + jk0 := by omega
        rw [hidx] at h
        exact h
      have hok2 : ∀ j (hj : j < rest.length), j ≠ jk0 →
          attemptOf w a ((i + 1) + j) (rest.get ⟨j, hj⟩) = .ok () := by
        intro j hj hne
        have h := hok (j + 1) (by simpa using Nat.succ_lt_succ hj) (by omega)
        have hidx : i + (j + 1) = (i + 1) + j := by omega
        rw [hidx] at h
        exact h
      obtain ⟨tr, em2, hem2, hrec, herr, hmem⟩ := ih (i + 1) jk0 hjk0 e
        (fun q hq => he q (List.mem_cons_of_mem r hq)) hfail2 hok2
      refine ⟨evts ++ (if 0 < a.delay ∧ i ≠ total then [Event.sleepFor a.delay] else []) ++ tr,
        em2, by simpa using hem2, ?_, ?_, ?_⟩
      · simp only [runLoop, hstep, hrec, hcase2.1]
        have hlen : 1 + (rest.length - 1) = (r :: rest).length - 1 := by
          simp only [List.length_cons]
          omega
        rw [hlen]
      · rw [errCount_append, errCount_append, hcase2.2, herr]
        have hz : errCount (if 0 < a.delay ∧ i ≠ total then [Event.sleepFor a.delay] else [])
            = 0 := by
          split <;> rfl
        omega
      · have hidx : i + (jk0 + 1) = (i + 1) + jk0 := by omega
        rw [hidx]
        exact List.mem_append_right _ hmem

/-- C3: if every recipient dict has its `email` key and exactly the
combined build-and-send attempt for the `k`-th recipient (1-based) raises
while every other attempt succeeds — which covers a render failure at
recipient `k` — then the loop catches the exception, logs exactly one
error line naming recipient `k`'s email and index, continues, and the
summary reports `sent = N - 1`. -/
theorem c3_single_failure_recovered (w : World) (a : SendArgs)
    (recipients : List RecipientDict) (k : Nat) (e : String)
    (hc : w.connect = .ok ()) (ht : a.useTls = true → w.starttls = .ok ())
    (hl : w.login = .ok ())
    (he : ∀ r ∈ recipients, ∃ em, r.email = some em)
    (hk1 : 1 ≤ k) (hkN : k ≤ recipients.length)
    (hfail : attemptOf w a k (recipients.get ⟨k - 1, by omega⟩) = .error e)
    (hok : ∀ j (hj : j < recipients.length), j + 1 ≠ k →
      attemptOf w a (j + 1) (recipients.get ⟨j, hj⟩) = .ok ()) :
    ∃ tr em,
      send_bulk w a recipients
        = .ok (recipients.length - 1,
            tr ++ [Event.summary (recipients.length - 1) recipients.length]) ∧
      errCount tr = 1 ∧ Event.errorLine k recipients.length em e ∈ tr := by
  have hjk : k - 1 < recipients.length := by omega
  have hfail2 : attemptOf w a (1 + (k - 1)) (recipients.get ⟨k - 1, hjk⟩) = .error e := by
    have hidx : 1 + (k - 1) = k := by omega
    rw [hidx]
    exact hfail
  have hok2 : ∀ j (hj : j < recipients.length), j ≠ k - 1 →
      attemptOf w a (1 + j) (recipients.get ⟨j, hj⟩) = .ok () := by
    intro j hj hne
    have h := hok j hj (by omega)
    have hidx : 1 + j = j + 1 := by omega
    rw [hidx]
    exact h
  obtain ⟨tr, em, hem, hrec, herr, hmem⟩ :=
    runLoop_one_failure w a recipients.length recipients 1 (k - 1) hjk e he hfail2 hok2
  refine ⟨tr, em, ?_, herr, ?_⟩
  · unfold send_bulk
    rw [hc]
    cases hu : a.useTls with
    | true =>
      rw [ht hu]
      simp only [hu, if_true]
      rw [hl, hrec]
    | false =>
      simp only [hu, Bool.false_eq_true, if_false]
      rw [hl, hrec]
  · have hidx : 1 + (k - 1) = k := by omega
    rw [hidx] at hmem
    exact hmem

/-- Witness for C3: three recipients, the SMTP server rejects exactly the
second message, the run reports 2 of 3 sent with one error line. -/
theorem c3_witness :
    sampleWorld.login = .ok () ∧
    (∃ tr em,
      send_bulk sampleWorld sampleArgs sampleRecipients
        = .ok (2, tr ++ [Event.summary 2 3]) ∧
      errCount tr = 1 ∧ Event.errorLine 2 3 em "SMTPRecipientsRefused" ∈ tr) := by
  refine ⟨rfl, ?_⟩
  have h := c3_single_failure_recovered sampleWorld sampleArgs sampleRecipients 2
    "SMTPRecipientsRefused" rfl (fun h => absurd h (by decide)) rfl
    (by
      intro r hr
      fin_cases hr
      · exact ⟨"alice@example.com", rfl⟩
      · exact ⟨"bob@example.com", rfl⟩
      · exact ⟨"carol@example.com", rfl⟩)
    (by decide) (by decide) rfl
    (by
      intro j hj hne
      have hj3 : j < 3 := by simpa [sampleRecipients] using hj
      interval_cases j
      · rfl
      · exact absurd rfl hne
      · rfl)
  simpa using h

/-- C4: when SMTP login raises, `send_bulk` aborts with that exception:
nothing is sent and no per-recipient line is printed (the result carries
no trace at all), because the login step precedes the delivery loop. -/
theorem c4_auth_failure_aborts (w : World) (a : SendArgs)
    (recipients : List RecipientDict) (e : String)
    (hc : w.connect = .ok ()) (ht : a.useTls = true → w.starttls = .ok ())
    (hl : w.login = .error e) :
    send_bulk w a recipients = .error e ∧
    ∀ sent tr, send_bulk w a recipients ≠ .ok (sent, tr) := by
  have h1 : send_bulk w a recipients = .error e := by
    unfold send_bulk
    rw [hc]
    cases hu : a.useTls with
    | true =>
      rw [ht hu]
      simp only [hu, if_true]
      rw [hl]
    | false =>
      simp only [hu, Bool.false_eq_true, if_false]
      rw [hl]
  refine ⟨h1, ?_⟩
  intro sent tr hcon
  rw [h1] at hcon
  cases hcon

/-- Witness for C4: a failing login aborts the sample run. -/
theorem c4_witness :
    authFailWorld.login = .error "SMTPAuthenticationError" ∧
    send_bulk authFailWorld sampleArgs sampleRecipients
      = .error "SMTPAuthenticationError" := by
  refine ⟨rfl, ?_⟩
  exact (c4_auth_failure_aborts authFailWorld sampleArgs sampleRecipients
    "SMTPAuthenticationError" rfl (fun h => absurd h (by decide)) rfl).1

/-! ## The delay discipline of the loop -/

theorem blockSpec_congr {d : Rat} {blk : List Event} {p q : Prop} (h : p ↔ q)
    (hb : blockSpec d p blk) : blockSpec d q blk := by
  unfold blockSpec at hb ⊢
  constructor
  · intro hx
    exact hb.1 ⟨fun hp => hx.1 (h.mp hp), hx.2⟩
  · intro hx
    refine hb.2 ?_
    rcases hx with hq | hd
    · exact .inl (h.mpr hq)
    · exact .inr hd

/-- Total number of sleeps emitted by the loop: one between every pair of
consecutive iterations when the delay is positive, none otherwise. -/
theorem runLoop_sleep_count (w : World) (a : SendArgs) (total : Nat) :
    ∀ (rs : List RecipientDict) (i : Nat),
    (∀ r ∈ rs, ∃ em, r.email = some em) →
    i + rs.length = total + 1 →
    ∃ sent tr, runLoop w a total i rs = .ok (sent, tr) ∧
      sleepCount tr = (if 0 < a.delay then rs.length - 1 else 0) := by
  intro rs
  induction rs with
  | nil =>
    intro i he hinv
    exact ⟨0, [], rfl, by split <;> rfl⟩
  | cons r rest ih =>
    intro i he hinv
    obtain ⟨em, hem⟩ := he r (List.mem_cons_self r rest)
    obtain ⟨inc, evts, hstep, hsc, hcase⟩ := stepEvents_spec w a i total r em hem
    have htot : total = i + rest.length := by
      simp only [List.length_cons] at hinv
      omega
    obtain ⟨sent2, tr2, hrec, hcnt⟩ := ih (i + 1)
      (fun q hq => he q (List.mem_cons_of_mem r hq))
      (by simp only [List.length_cons] at hinv ⊢; omega)
    refine ⟨inc + sent2,
      evts ++ (if 0 < a.delay ∧ i ≠ total then [Event.sleepFor a.delay] else []) ++ tr2,
      ?_, ?_⟩
    · simp only [runLoop, hstep, hrec]
    · rw [sleepCount_append, sleepCount_append, hsc, hcnt]
      have hz : sleepCount (if 0 < a.delay ∧ i ≠ total then [Event.sleepFor a.delay] else [])
          = (if 0 < a.delay ∧ i ≠ total then 1 else 0) := by
        split <;> rfl
      rw [hz]
      by_cases hd : 0 < a.delay
      · by_cases hlen : rest.length = 0
        · have hi : i = total := by omega
          simp [hd, hi, hlen]
        · have hi : i ≠ total := by omega
          simp only [hd, hi, and_true, if_true, true_and, ne_eq, not_false_iff,
            List.length_cons]
          omega
      · simp [hd]

/-- The loop's trace decomposes into one block per iteration, and each
block obeys the sleep discipline `blockSpec`. -/
theorem runLoop_blocks (w : World) (a : SendArgs) (total : Nat) :
    ∀ (rs : List RecipientDict) (i : Nat),
    (∀ r ∈ rs, ∃ em, r.email = some em) →
    i + rs.length = total + 1 →
    ∃ (sent : Nat) (blocks : List (List Event)),
      runLoop w a total i rs = .ok (sent, blocks.flatten) ∧
      blocks.length = rs.length ∧
      ∀ j (hj : j < blocks.length), blockSpec a.delay (i + j = total) (blocks.get ⟨j, hj⟩) := by
  intro rs
  induction rs with
  | nil =>
    intro i he hinv
    exact ⟨0, [], rfl, rfl, fun j hj => absurd hj (by simp)⟩
  | cons r rest ih =>
    intro i he hinv
    obtain ⟨em, hem⟩ := he r (List.mem_cons_self r rest)
    obtain ⟨inc, evts, hstep, hsc, hcase⟩ := stepEvents_spec w a i total r em hem
    obtain ⟨sent2, blocks2, hrec, hlen2, hspec2⟩ := ih (i + 1)
      (fun q hq => he q (List.mem_cons_of_mem r hq))
      (by simp only [List.length_cons] at hinv ⊢; omega)
    refine ⟨inc + sent2,
      (evts ++ (if 0 < a.delay ∧ i ≠ total then [Event.sleepFor a.delay] else [])) :: blocks2,
      ?_, ?_, ?_⟩
    · simp only [runLoop, hstep, hrec, List.flatten_cons, List.append_assoc]
    · simp [hlen2]
    · intro j hj
      cases j with
      | zero =>
        constructor
        · rintro ⟨hne, hd⟩
          have hi : i ≠ total := by simpa using hne
          refine ⟨evts, ?_, hsc⟩
          simp [hd, hi]
        · intro hcase2
          have hz : (if 0 < a.delay ∧ i ≠ total then [Event.sleepFor a.delay] else [])
              = [] := by
            rcases hcase2 with hi | hd
            · have hi2 : i = total := by simpa using hi
              simp [hi2]
            · simp [not_lt.mpr hd]
          rw [hz]
          rw [show List.get ((evts ++ []) :: blocks2) ⟨0, hj⟩ = evts ++ [] from rfl]
          rw [sleepCount_append, hsc]
          rfl
      | succ j0 =>
        have hj0 : j0 < blocks2.length := by simpa using Nat.lt_of_succ_lt_succ hj
        have h := hspec2 j0 hj0
        exact blockSpec_congr (by omega) h

/-- C5: for a run over `N` recipients with positive delay, the trace
splits into one block per recipient: every non-final block ends in exactly
one `sleep(delay)` and contains no other pause — whether its send
succeeded or failed — the final block pauses not at all, the total pause
count is `N - 1`, and with delay 0 no pause ever occurs. -/
theorem c5_delay_discipline (w : World) (a : SendArgs) (recipients : List RecipientDict)
    (hc : w.connect = .ok ()) (ht : a.useTls = true → w.starttls = .ok ())
    (hl : w.login = .ok ())
    (he : ∀ r ∈ recipients, ∃ em, r.email = some em)
    (hN : 1 < recipients.length) :
    ∃ (sent : Nat) (blocks : List (List Event)),
      send_bulk w a recipients
        = .ok (sent, blocks.flatten ++ [Event.summary sent recipients.length]) ∧
      blocks.length = recipients.length ∧
      (∀ j (hj : j < blocks.length), blockSpec a.delay (j + 1 = recipients.length)
        (blocks.get ⟨j, hj⟩)) ∧
      (0 < a.delay → sleepCount blocks.flatten = recipients.length - 1) ∧
      (a.delay = 0 → sleepCount blocks.flatten = 0) := by
  have hinv : 1 + recipients.length = recipients.length + 1 := by omega
  obtain ⟨sent, blocks, hrun, hlen, hspec⟩ :=
    runLoop_blocks w a recipients.length recipients 1 he hinv
  obtain ⟨sent2, tr2, hrun2, hcnt⟩ :=
    runLoop_sleep_count w a recipients.length recipients 1 he hinv
  rw [hrun] at hrun2
  injection hrun2 with hpair
  injection hpair with hsent htr
  subst hsent
  rw [← htr] at hcnt
  refine ⟨sent, blocks, ?_, hlen, ?_, ?_, ?_⟩
  · unfold send_bulk
    rw [hc]
    cases hu : a.useTls with
    | true =>
      rw [ht hu]
      simp only [hu, if_true]
      rw [hl, hrun]
    | false =>
      simp only [hu, Bool.false_eq_true, if_false]
      rw [hl, hrun]
  · intro j hj
    exact blockSpec_congr (by omega) (hspec j hj)
  · intro hd
    rw [if_pos hd] at hcnt
    exact hcnt
  · intro hd0
    have hd : ¬ 0 < a.delay := by
      rw [hd0]
      exact lt_irrefl 0
    rw [if_neg hd] at hcnt
    exact hcnt

/-- Witness for C5: three recipients at delay 1 give two pauses, one
after each non-final recipient. -/
theorem c5_witness :
    (0 : Rat) < sampleArgs.delay ∧ 1 < sampleRecipients.length ∧
    (∃ (sent : Nat) (blocks : List (List Event)),
      send_bulk allOkWorld sampleArgs sampleRecipients
        = .ok (sent, blocks.flatten ++ [Event.summary sent sampleRecipients.length]) ∧
      blocks.length = sampleRecipients.length ∧
      (∀ j (hj : j < blocks.length), blockSpec sampleArgs.delay
        (j + 1 = sampleRecipients.length) (blocks.get ⟨j, hj⟩)) ∧
      (0 < sampleArgs.delay → sleepCount blocks.flatten = sampleRecipients.length - 1) ∧
      (sampleArgs.delay = 0 → sleepCount blocks.flatten = 0)) := by
  refine ⟨by norm_num [sampleArgs], by decide, ?_⟩
  exact c5_delay_discipline allOkWorld sampleArgs sampleRecipients rfl
    (fun h => absurd h (by decide)) rfl
    (by
      intro r hr
      fin_cases hr
      · exact ⟨"alice@example.com", rfl⟩
      · exact ⟨"bob@example.com", rfl⟩
      · exact ⟨"carol@example.com", rfl⟩)
    (by decide)

/-! ## The CLI fail-fast behavior -/

/-- C8: `main` aborts with a printed diagnostic — before consulting any
SMTP oracle — whenever the resolved credentials (flag or environment
fallback) are missing or empty, or when the CSV yields zero recipients;
only the `.ran` result of `main_run` ever touches the SMTP session. -/
theorem c8_failfast :
    (∀ (w : World) (argU argP envU envP : Option String) (rows : List (List String))
        (st bp : String) (sn : Option String) (ihtml : Bool) (ap : Option String)
        (d : Rat) (nt : Bool),
        pyTruthy (pyOr argU envU) = false ∨ pyTruthy (pyOr argP envP) = false →
        main_run w argU argP envU envP rows st bp sn ihtml ap d nt
          = .credsMissing [credErr1, credErr2]) ∧
    (∀ (w : World) (argU argP envU envP : Option String) (rows : List (List String))
        (st bp : String) (sn : Option String) (ihtml : Bool) (ap : Option String)
        (d : Rat) (nt : Bool),
        pyTruthy (pyOr argU envU) = true → pyTruthy (pyOr argP envP) = true →
        load_recipients rows = [] →
        main_run w argU argP envU envP rows st bp sn ihtml ap d nt
          = .noRecipients noRecipErr) := by
  constructor
  · intro w argU argP envU envP rows st bp sn ihtml ap d nt hcred
    unfold main_run
    rcases hcred with h | h
    · simp [h]
    · simp [h]
  · intro w argU argP envU envP rows st bp sn ihtml ap d nt hu hp hload
    unfold main_run
    simp [hu, hp, hload]

/-- Witness for C8: an empty `SMTP_USER` fallback aborts before any SMTP
use; with credentials present, a comment-only CSV aborts likewise. -/
theorem c8_witness :
    pyTruthy (pyOr none (some "")) = false ∧
    main_run sampleWorld none (some "pw") (some "") none [["a@b.c"]] "s" "b.txt"
        none false none 1 false = .credsMissing [credErr1, credErr2] ∧
    load_recipients [["# comment"], []] = [] ∧
    main_run sampleWorld (some "u") (some "p") none none [["# comment"], []] "s" "b.txt"
        none false none 1 false = .noRecipients noRecipErr := by
  refine ⟨rfl, ?_, by decide, ?_⟩
  · exact c8_failfast.1 sampleWorld none (some "pw") (some "") none [["a@b.c"]] "s" "b.txt"
      none false none 1 false (Or.inl rfl)
  · exact c8_failfast.2 sampleWorld (some "u") (some "p") none none [["# comment"], []]
      "s" "b.txt" none false none 1 false rfl rfl (by decide)

end BulkMailer
